import Mathlib

/-!
# DebateAI-CLI core: shallow embedding and verification

This file embeds the core of the DebateAI-CLI repository
(`debateai-core`: `orchestrator.rs`, `debate_format.rs`, `error.rs`,
`participant.rs`, `tts.rs`) as executable Lean definitions and proves
the specification's testable properties about them.

Strings are modelled as `String` / `List Char`.  Rust's `str::len()` is a
UTF-8 byte length and is modelled by `utf8Len`; Rust's `str::trim()` and
the regex class `\s` use Unicode whitespace, modelled by `isRustWs`.
The regex crate's `\w` is modelled on the ASCII range `[A-Za-z0-9_]`
(the crate additionally treats some non-ASCII characters as word
characters; none of the properties below depend on those).
-/

namespace DebateAI

/-- Rust/regex whitespace (`char::is_whitespace`, regex `\s`):
the Unicode `White_Space` property, enumerated. -/
def isRustWs (c : Char) : Bool :=
  c.val = 0x09 || c.val = 0x0A || c.val = 0x0B || c.val = 0x0C ||
  c.val = 0x0D || c.val = 0x20 || c.val = 0x85 || c.val = 0xA0 ||
  c.val = 0x1680 || (0x2000 ≤ c.val && c.val ≤ 0x200A) ||
  c.val = 0x2028 || c.val = 0x2029 || c.val = 0x202F ||
  c.val = 0x205F || c.val = 0x3000

/-- Regex `\w` on the ASCII range: `[A-Za-z0-9_]`. -/
def isWordChar (c : Char) : Bool :=
  ('a' ≤ c && c ≤ 'z') || ('A' ≤ c && c ≤ 'Z') ||
  ('0' ≤ c && c ≤ '9') || c = '_'

/-- Rust `str::trim` on a character list: drop whitespace from both ends. -/
def rustTrim (l : List Char) : List Char :=
  ((l.dropWhile isRustWs).reverse.dropWhile isRustWs).reverse

/-- Rust `str::len`: the UTF-8 byte length. -/
def utf8Len (l : List Char) : Nat :=
  (l.map Char.utf8Size).sum

/-! ## The response sanitizer (`sanitize_response`, orchestrator.rs)

The Rust function applies, in order:
1. for each tag in a fixed list, `replace_all` of
   `(?is)<tag[^>]*>.*?</tag>` with the empty string;
2. `replace_all` of the orphan pattern `</?[\w]+[^>]*>` with the empty
   string;
3. removal of every `*` character;
4. `replace_all` of `\s+` with a single space;
5. `trim`.

Each `replace_all` is modelled directly: scan left to right, at each
position try to match the pattern (leftmost match); on a match, skip the
matched characters and continue scanning after them (non-overlapping),
otherwise keep the character.  The scans are written with an explicit
fuel argument (initialised to the input length) so that they are
structurally recursive; a match always consumes at least one character,
so the fuel never runs out. -/

/-- The tag names stripped by step 1, in source order. -/
def tagsToStrip : List (List Char) :=
  ["thinking".data, "think".data, "reflection".data, "reflect".data,
   "internal".data, "reasoning".data, "thought".data, "scratch".data,
   "scratchpad".data, "plan".data, "analysis".data, "analyze".data,
   "consider".data, "pondering".data, "deliberation".data]

/-- Case-insensitive (ASCII folding) literal match: if `pat` (lowercase)
is a prefix of `s` up to ASCII case, return the rest of `s`. -/
def ciStrip : List Char → List Char → Option (List Char)
  | [], s => some s
  | _ :: _, [] => none
  | p :: ps, c :: cs => if c.toLower = p then ciStrip ps cs else none

/-- Skip to just after the first `'>'`; `none` if there is none.
This is `[^>]*>` of the patterns: everything before the first `'>'`
is matched by `[^>]*`. -/
def findGt : List Char → Option (List Char)
  | [] => none
  | c :: cs => if c = '>' then some cs else findGt cs

/-- Try to match the orphan pattern `</?[\w]+[^>]*>` at the start of the
list; on success return the remainder after the match. -/
def tryOrphanAt : List Char → Option (List Char)
  | [] => none
  | c :: rest =>
    if c = '<' then
      let rest' := match rest with
        | [] => ([] : List Char)
        | d :: r => if d = '/' then r else d :: r
      match rest' with
      | e :: cs => if isWordChar e then findGt cs else none
      | [] => none
    else none

/-- One `replace_all` scan for the orphan pattern (step 2), fuelled. -/
def orphanStripF : Nat → List Char → List Char
  | 0, s => s
  | _ + 1, [] => []
  | fuel + 1, c :: cs =>
    match tryOrphanAt (c :: cs) with
    | some rest => orphanStripF fuel rest
    | none => c :: orphanStripF fuel cs

/-- `replace_all` of `</?[\w]+[^>]*>` with the empty string. -/
def orphanStrip (s : List Char) : List Char :=
  orphanStripF s.length s

/-- Try to match the literal closing tag `</tag>` (ASCII
case-insensitive) at the start of the list; return the remainder. -/
def closeAt (tag : List Char) : List Char → Option (List Char)
  | [] => none
  | c :: cs =>
    if c = '<' then
      match cs with
      | [] => none
      | d :: r =>
        if d = '/' then
          match ciStrip tag r with
          | some r' =>
            match r' with
            | e :: r'' => if e = '>' then some r'' else none
            | [] => none
          | none => none
        else none
    else none

/-- Find the first occurrence of `</tag>` and return the remainder
after it.  This is the lazy `.*?</tag>` of the step-1 pattern. -/
def findCloseF (tag : List Char) : Nat → List Char → Option (List Char)
  | 0, _ => none
  | _ + 1, [] => none
  | fuel + 1, c :: cs =>
    match closeAt tag (c :: cs) with
    | some r => some r
    | none => findCloseF tag fuel cs

/-- Try to match `(?is)<tag[^>]*>.*?</tag>` at the start of the list;
on success return the remainder after the whole match. -/
def tryTagAt (tag : List Char) : List Char → Option (List Char)
  | [] => none
  | c :: rest =>
    if c = '<' then
      match ciStrip tag rest with
      | some r1 =>
        match findGt r1 with
        | some r2 => findCloseF tag r2.length r2
        | none => none
      | none => none
    else none

/-- One `replace_all` scan for one tag pattern (step 1), fuelled. -/
def stripTagF (tag : List Char) : Nat → List Char → List Char
  | 0, s => s
  | _ + 1, [] => []
  | fuel + 1, c :: cs =>
    match tryTagAt tag (c :: cs) with
    | some rest => stripTagF tag fuel rest
    | none => c :: stripTagF tag fuel cs

/-- `replace_all` of `(?is)<tag[^>]*>.*?</tag>` with the empty string. -/
def stripTag (tag : List Char) (s : List Char) : List Char :=
  stripTagF tag s.length s

/-- Step 1: strip every tag of `tagsToStrip` in order. -/
def stripTags (tags : List (List Char)) (s : List Char) : List Char :=
  tags.foldl (fun acc t => stripTag t acc) s

/-- Step 4: `replace_all` of `\s+` with a single space, written with a
"previous character was whitespace" flag so it is structural. -/
def collapseWsAux : Bool → List Char → List Char
  | _, [] => []
  | prevWs, c :: cs =>
    if isRustWs c then
      if prevWs then collapseWsAux true cs
      else ' ' :: collapseWsAux true cs
    else c :: collapseWsAux false cs

/-- Collapse every maximal whitespace run to a single space. -/
def collapseWs (s : List Char) : List Char :=
  collapseWsAux false s

/-- `sanitize_response` (orchestrator.rs): the five steps in order. -/
def sanitize_response (s : List Char) : List Char :=
  rustTrim (collapseWs ((orphanStrip (stripTags tagsToStrip s)).filter
    (fun c => c ≠ '*')))

/-- `sanitize_response` lifted to `String`. -/
def sanitizeStr (s : String) : String :=
  String.mk (sanitize_response s.data)

/-! ## Lemmas about the sanitizer -/

/-- Adjacent characters are not both whitespace. -/
def WsRel (a b : Char) : Prop :=
  ¬(isRustWs a = true ∧ isRustWs b = true)

/-- The normal form produced by whitespace collapsing: every whitespace
character is a plain space, and no two adjacent characters are both
whitespace. -/
def Collapsed (l : List Char) : Prop :=
  (∀ c ∈ l, isRustWs c = true → c = ' ') ∧ l.Chain' WsRel

theorem tryOrphanAt_eq_none {c : Char} (h : c ≠ '<') (cs : List Char) :
    tryOrphanAt (c :: cs) = none := by
  simp [tryOrphanAt, h]

theorem tryTagAt_eq_none {c : Char} (h : c ≠ '<') (tag cs : List Char) :
    tryTagAt tag (c :: cs) = none := by
  simp [tryTagAt, h]

theorem orphanStripF_eq_self : ∀ (fuel : Nat) (s : List Char),
    '<' ∉ s → orphanStripF fuel s = s
  | 0, _, _ => rfl
  | _ + 1, [], _ => rfl
  | fuel + 1, c :: cs, h => by
    have hc : c ≠ '<' := fun hh => h (hh ▸ List.mem_cons_self c cs)
    rw [orphanStripF, tryOrphanAt_eq_none hc]
    exact congrArg _
      (orphanStripF_eq_self fuel cs fun hm => h (List.mem_cons_of_mem _ hm))

theorem orphanStrip_eq_self {s : List Char} (h : '<' ∉ s) :
    orphanStrip s = s :=
  orphanStripF_eq_self _ _ h

theorem stripTagF_eq_self (tag : List Char) : ∀ (fuel : Nat) (s : List Char),
    '<' ∉ s → stripTagF tag fuel s = s
  | 0, _, _ => rfl
  | _ + 1, [], _ => rfl
  | fuel + 1, c :: cs, h => by
    have hc : c ≠ '<' := fun hh => h (hh ▸ List.mem_cons_self c cs)
    rw [stripTagF, tryTagAt_eq_none hc]
    exact congrArg _
      (stripTagF_eq_self tag fuel cs fun hm => h (List.mem_cons_of_mem _ hm))

theorem stripTag_eq_self {s : List Char} (h : '<' ∉ s) (tag : List Char) :
    stripTag tag s = s :=
  stripTagF_eq_self _ _ _ h

theorem stripTags_eq_self {s : List Char} (h : '<' ∉ s) :
    ∀ tags, stripTags tags s = s := by
  intro tags
  induction tags with
  | nil => rfl
  | cons t ts ih =>
    show List.foldl _ _ _ = s
    rw [List.foldl_cons]
    show stripTags ts (stripTag t s) = s
    rw [stripTag_eq_self h]
    exact ih

theorem collapseWsAux_cons_ws_true {c : Char} (h : isRustWs c = true)
    (cs : List Char) : collapseWsAux true (c :: cs) = collapseWsAux true cs := by
  simp [collapseWsAux, h]

theorem collapseWsAux_cons_ws_false {c : Char} (h : isRustWs c = true)
    (cs : List Char) :
    collapseWsAux false (c :: cs) = ' ' :: collapseWsAux true cs := by
  simp [collapseWsAux, h]

theorem collapseWsAux_cons_not_ws {c : Char} (h : isRustWs c = false)
    (b : Bool) (cs : List Char) :
    collapseWsAux b (c :: cs) = c :: collapseWsAux false cs := by
  simp [collapseWsAux, h]

/-- Characters of the collapsed list: either a space introduced by the
collapse, or a non-whitespace character of the input. -/
theorem mem_collapseWsAux {x : Char} : ∀ (s : List Char) (b : Bool),
    x ∈ collapseWsAux b s → x = ' ' ∨ (x ∈ s ∧ isRustWs x = false) := by
  intro s
  induction s with
  | nil => intro b h; simp [collapseWsAux] at h
  | cons c cs ih =>
    intro b h
    by_cases hw : isRustWs c = true
    · have hmem : x ∈ collapseWsAux true cs ∨ x = ' ' := by
        cases b with
        | true => rw [collapseWsAux_cons_ws_true hw] at h; exact Or.inl h
        | false =>
          rw [collapseWsAux_cons_ws_false hw] at h
          rcases List.mem_cons.mp h with h1 | h1
          · exact Or.inr h1
          · exact Or.inl h1
      rcases hmem with h1 | h1
      · rcases ih true h1 with h2 | ⟨h2, h3⟩
        · exact Or.inl h2
        · exact Or.inr ⟨List.mem_cons_of_mem _ h2, h3⟩
      · exact Or.inl h1
    · rw [collapseWsAux_cons_not_ws (Bool.eq_false_iff.mpr hw)] at h
      rcases List.mem_cons.mp h with h1 | h1
      · exact Or.inr ⟨h1 ▸ List.mem_cons_self c cs,
          h1 ▸ Bool.eq_false_iff.mpr hw⟩
      · rcases ih false h1 with h2 | ⟨h2, h3⟩
        · exact Or.inl h2
        · exact Or.inr ⟨List.mem_cons_of_mem _ h2, h3⟩

theorem head?_collapseWsAux_true : ∀ (s : List Char) (x : Char),
    (collapseWsAux true s).head? = some x → isRustWs x = false := by
  intro s
  induction s with
  | nil => intro x h; simp [collapseWsAux] at h
  | cons c cs ih =>
    intro x h
    by_cases hw : isRustWs c = true
    · rw [collapseWsAux_cons_ws_true hw] at h
      exact ih x h
    · rw [collapseWsAux_cons_not_ws (Bool.eq_false_iff.mpr hw),
        List.head?_cons] at h
      cases h
      exact Bool.eq_false_iff.mpr hw

theorem chain'_collapseWsAux : ∀ (s : List Char) (b : Bool),
    (collapseWsAux b s).Chain' WsRel := by
  intro s
  induction s with
  | nil => intro b; simp [collapseWsAux]
  | cons c cs ih =>
    intro b
    by_cases hw : isRustWs c = true
    · cases b with
      | true => rw [collapseWsAux_cons_ws_true hw]; exact ih true
      | false =>
        rw [collapseWsAux_cons_ws_false hw]
        refine List.chain'_cons'.mpr ⟨?_, ih true⟩
        intro y hy
        exact fun hcon => by
          rw [head?_collapseWsAux_true cs y hy] at hcon
          exact Bool.false_ne_true hcon.2
    · rw [collapseWsAux_cons_not_ws (Bool.eq_false_iff.mpr hw)]
      refine List.chain'_cons'.mpr ⟨?_, ih false⟩
      intro y _
      exact fun hcon => hw hcon.1

theorem collapsed_collapseWs (s : List Char) : Collapsed (collapseWs s) := by
  constructor
  · intro c hc hwc
    rcases mem_collapseWsAux s false hc with h | ⟨_, h⟩
    · exact h
    · rw [h] at hwc; exact absurd hwc Bool.false_ne_true
  · exact chain'_collapseWsAux s false

theorem collapseWsAux_eq_self : ∀ (s : List Char),
    (∀ c ∈ s, isRustWs c = true → c = ' ') → s.Chain' WsRel →
    collapseWsAux false s = s ∧
      ((∀ x, s.head? = some x → isRustWs x = false) →
        collapseWsAux true s = s) := by
  intro s
  induction s with
  | nil => exact fun _ _ => ⟨rfl, fun _ => rfl⟩
  | cons c cs ih =>
    intro hws hch
    obtain ⟨hhead, hch'⟩ := List.chain'_cons'.mp hch
    have ihcs := ih (fun d hd => hws d (List.mem_cons_of_mem _ hd)) hch'
    by_cases hw : isRustWs c = true
    · have hc : c = ' ' := hws c (List.mem_cons_self c cs) hw
      have htail : collapseWsAux true cs = cs := by
        refine ihcs.2 ?_
        intro x hx
        by_contra hxx
        exact hhead x hx ⟨hw, Bool.not_eq_false _ |>.mp hxx⟩
      constructor
      · rw [collapseWsAux_cons_ws_false hw, htail, hc]
      · intro hh
        exact absurd hw (by simpa using hh c rfl)
    · have hw' : isRustWs c = false := Bool.eq_false_iff.mpr hw
      constructor
      · rw [collapseWsAux_cons_not_ws hw', ihcs.1]
      · intro _
        rw [collapseWsAux_cons_not_ws hw', ihcs.1]

theorem collapseWs_eq_self {s : List Char} (h : Collapsed s) :
    collapseWs s = s :=
  (collapseWsAux_eq_self s h.1 h.2).1

theorem rustTrim_isInfix (l : List Char) : rustTrim l <:+: l := by
  have h1 : l.dropWhile isRustWs <:+ l := List.dropWhile_suffix _
  have h2 : (l.dropWhile isRustWs).reverse.dropWhile isRustWs <:+
      (l.dropWhile isRustWs).reverse := List.dropWhile_suffix _
  have h3 : rustTrim l <+: l.dropWhile isRustWs := by
    rw [rustTrim]
    have h4 : ((l.dropWhile isRustWs).reverse.dropWhile isRustWs).reverse <+:
        (l.dropWhile isRustWs).reverse.reverse := List.reverse_prefix.mpr h2
    rwa [List.reverse_reverse] at h4
  exact h3.isInfix.trans h1.isInfix

theorem head?_dropWhile {p : Char → Bool} : ∀ (l : List Char) (x : Char),
    (l.dropWhile p).head? = some x → p x = false := by
  intro l
  induction l with
  | nil => intro x h; simp at h
  | cons c cs ih =>
    intro x h
    rw [List.dropWhile_cons] at h
    by_cases hp : p c = true
    · rw [if_pos hp] at h
      exact ih x h
    · rw [if_neg hp, List.head?_cons] at h
      cases h
      exact Bool.eq_false_iff.mpr hp

theorem getLast?_dropWhile {p : Char → Bool} : ∀ (l : List Char),
    l.dropWhile p ≠ [] → (l.dropWhile p).getLast? = l.getLast? := by
  intro l
  induction l with
  | nil => intro h; simp at h
  | cons c cs ih =>
    intro h
    rw [List.dropWhile_cons] at h ⊢
    by_cases hp : p c = true
    · rw [if_pos hp] at h ⊢
      have hcs : cs ≠ [] := by
        intro hnil
        rw [hnil] at h
        exact h rfl
      obtain ⟨d, ds, rfl⟩ := List.exists_cons_of_ne_nil hcs
      rw [ih h, List.getLast?_cons_cons]
    · rw [if_neg hp]

theorem dropWhile_eq_self_of_head {p : Char → Bool} (l : List Char)
    (h : ∀ x, l.head? = some x → p x = false) : l.dropWhile p = l := by
  cases l with
  | nil => rfl
  | cons c cs =>
    rw [List.dropWhile_cons, if_neg]
    rw [h c rfl]
    simp

theorem rustTrim_eq_self (l : List Char)
    (h1 : ∀ x, l.head? = some x → isRustWs x = false)
    (h2 : ∀ x, l.getLast? = some x → isRustWs x = false) : rustTrim l = l := by
  rw [rustTrim, dropWhile_eq_self_of_head _ h1,
    dropWhile_eq_self_of_head _ (fun x hx =>
      h2 x (by rwa [List.head?_reverse] at hx)),
    List.reverse_reverse]

theorem rustTrim_getLast? (l : List Char) (x : Char)
    (h : (rustTrim l).getLast? = some x) : isRustWs x = false := by
  rw [rustTrim, List.getLast?_reverse] at h
  exact head?_dropWhile _ _ h

theorem rustTrim_head? (l : List Char) (x : Char)
    (h : (rustTrim l).head? = some x) : isRustWs x = false := by
  rw [rustTrim, List.head?_reverse] at h
  have hne : (l.dropWhile isRustWs).reverse.dropWhile isRustWs ≠ [] := by
    intro hnil
    rw [hnil] at h
    simp at h
  rw [getLast?_dropWhile _ hne, List.getLast?_reverse] at h
  exact head?_dropWhile _ _ h

theorem rustTrim_idem (l : List Char) : rustTrim (rustTrim l) = rustTrim l :=
  rustTrim_eq_self _ (rustTrim_head? l) (rustTrim_getLast? l)

theorem Collapsed.of_isInfix {l l' : List Char} (h : Collapsed l)
    (hinf : l' <:+: l) : Collapsed l' :=
  ⟨fun c hc => h.1 c (hinf.sublist.subset hc), List.Chain'.infix h.2 hinf⟩

theorem sanitize_no_asterisk (s : List Char) : '*' ∉ sanitize_response s := by
  intro hmem
  have h1 : '*' ∈ collapseWs ((orphanStrip (stripTags tagsToStrip s)).filter
      (fun c => c ≠ '*')) := (rustTrim_isInfix _).sublist.subset hmem
  rcases mem_collapseWsAux _ false h1 with h2 | ⟨h2, _⟩
  · exact absurd h2 (by decide)
  · have := (List.mem_filter.mp h2).2
    simp at this

theorem collapsed_sanitize (s : List Char) : Collapsed (sanitize_response s) :=
  (collapsed_collapseWs _).of_isInfix (rustTrim_isInfix _)

/-- The claim's statement fails: `sanitize_response` is not idempotent.
On `"<<b>a>"` the orphan-tag `replace_all` removes `<b>` and thereby
splices the remaining pieces into `<a>`, which only a second pass
removes: the first pass yields `<a>`, the second yields the empty
string. -/
theorem C2_sanitize_not_idempotent :
    ¬(sanitize_response (sanitize_response "<<b>a>".data) =
      sanitize_response "<<b>a>".data) := by
  decide

/-- C2 (amended): `sanitize` is idempotent on every input whose
sanitized output contains no `'<'` character (on such outputs no tag
pattern and no orphan pattern can match, no asterisk remains, and the
whitespace is already collapsed and trimmed). -/
theorem C2_sanitize_idempotent_amended (x : List Char)
    (h : '<' ∉ sanitize_response x) :
    sanitize_response (sanitize_response x) = sanitize_response x := by
  have hstar : '*' ∉ sanitize_response x := sanitize_no_asterisk x
  have hcol : Collapsed (sanitize_response x) := collapsed_sanitize x
  conv_lhs => rw [sanitize_response]
  rw [stripTags_eq_self h, orphanStrip_eq_self h,
    List.filter_eq_self.mpr (fun a ha => by
      simp only [ne_eq, decide_eq_true_eq]
      exact fun hee => hstar (hee ▸ ha)),
    collapseWs_eq_self hcol]
  exact rustTrim_idem _

/-- Witness for the amended C2 theorem at the concrete input
`"hello  *world*"`, whose sanitized form `"hello world"` has no `'<'`. -/
theorem C2_sanitize_idempotent_amended_witness :
    '<' ∉ sanitize_response "hello  *world*".data ∧
      sanitize_response (sanitize_response "hello  *world*".data) =
        sanitize_response "hello  *world*".data :=
  ⟨by decide, C2_sanitize_idempotent_amended _ (by decide)⟩

/-! ## Participants (`participant.rs`) and errors (`error.rs`) -/

inductive ParticipantRole where
  | For
  | Against
  | Neutral
deriving DecidableEq, Repr

def ParticipantRole.display_name : ParticipantRole → String
  | .For => "FOR"
  | .Against => "AGAINST"
  | .Neutral => "NEUTRAL"

structure AIParticipant where
  name : String
  model : String
  role : ParticipantRole
  custom_system_prompt : Option String
  voice_id : Option String
deriving DecidableEq, Repr

def AIParticipant.display_name_with_role (p : AIParticipant) : String :=
  p.name ++ " (" ++ p.role.display_name ++ ")"

/-- Stand-in for an out-of-bounds `participants[i]` access; every use is
guarded by an index-in-range check, as in the source. -/
def dummyParticipant : AIParticipant :=
  ⟨"", "", .Neutral, none, none⟩

inductive DebateError where
  | InvalidParticipantCount (min max actual : Nat)
  | OpenAIError (msg : String)
  | ConfigError (msg : String)
  | UnknownFormat (msg : String)
deriving DecidableEq, Repr

/-! ## Debate formats (`debate_format.rs`) -/

/-- A debate section.  The Rust field `section` of `DebateMessage` and
this structure's `name` etc. carry over directly. -/
structure DebateSection where
  name : String
  description : String
  speaker_order : List Nat
  max_tokens : Nat
deriving DecidableEq, Repr

/-- The `DebateFormat` trait object: the capability set a format
provides (`sections()` is produced fresh per run in Rust but depends
only on the format value, so it is a field here). -/
structure DebateFormat where
  name : String
  display_name : String
  sections : List DebateSection
  min_participants : Nat
  max_participants : Nat
  system_prompt : String → String → String → String

/-- Rust `str::contains` (substring search), on the ASCII level used by
`system_prompt`'s `role_name.contains("FOR") || role_name.contains("Pro")`. -/
def listContains (needle : List Char) : List Char → Bool
  | [] => needle.isEmpty
  | c :: t => needle.isPrefixOf (c :: t) || listContains needle t

def strContains (hay needle : String) : Bool :=
  listContains needle.data hay.data

/-- `PresidentialDebateFormat::system_prompt`. -/
def presidentialSystemPrompt (topic role_name opponent_name : String) : String :=
  "You are " ++ role_name ++
  " participating in a formal presidential-style debate.\n\nTOPIC: " ++
  topic ++ "\n\nYour role is to argue " ++
  (if strContains role_name "FOR" || strContains role_name "Pro" then
    "IN FAVOR OF" else "AGAINST") ++
  " the topic. Your opponent is " ++ opponent_name ++
  ".\n\nGuidelines:\n- Be persuasive, articulate, and professional\n- Use evidence and logical reasoning\n- Address your opponent's points when appropriate\n- Maintain a respectful but firm debating stance\n- Keep responses focused and within the time constraints\n- Do not break character or acknowledge being an AI\n\nSpeak directly as if you are at a podium addressing an audience."

/-- `rounds` is a `u32` in the source; the model carries it as a `Nat`
and applies the `u32` reduction (`% 2^32`) wherever the source's
integer semantics depend on the width. -/
structure PresidentialDebateFormat where
  rounds : Nat
deriving DecidableEq, Repr

/-- The Rust `u32 as i32` cast: two's-complement reinterpretation of
the low 32 bits. -/
def i32OfU32 (n : Nat) : Int :=
  if n % 2 ^ 32 < 2 ^ 31 then ((n % 2 ^ 32 : Nat) : Int)
  else ((n % 2 ^ 32 : Nat) : Int) - 2 ^ 32

/-- The number of main-argument sections:
`(self.rounds as i32 - 3).max(1) as usize` (debate_format.rs).
`rounds` is a `u32`, so the `as i32` cast wraps: for
`rounds ∈ [2^31 + 3, 2^32 - 1]` the cast is negative, the difference
stays below 1 and exactly one main round is produced.  The `- 3` is
modelled as wrapping `i32` subtraction (the
`(x + 2^31) % 2^32 - 2^31` renormalization); for
`rounds ∈ [2^31, 2^31 + 2]` that subtraction overflows `i32` — a
panic in debug builds and this wrap in release builds — and no
statement below touches that range.  On `rounds < 2^31` every step is
value-preserving in both build profiles. -/
def mainRounds (rounds : Nat) : Nat :=
  (max ((i32OfU32 rounds - 3 + 2 ^ 31) % 2 ^ 32 - 2 ^ 31) 1).toNat

namespace PresidentialDebateFormat

/-- `PresidentialDebateFormat::new`: clamps `rounds` to a minimum of 4. -/
def new (rounds : Nat) : PresidentialDebateFormat :=
  ⟨max rounds 4⟩

def openingSection : DebateSection :=
  { name := "Opening Statements"
    description := "Each candidate presents their initial position on the topic."
    speaker_order := [0, 1]
    max_tokens := 300 }

def mainSection (i : Nat) : DebateSection :=
  { name := "Main Arguments - Round " ++ toString (i + 1)
    description := "Candidates elaborate on their positions with supporting arguments."
    speaker_order := if i % 2 = 1 then [1, 0] else [0, 1]
    max_tokens := 400 }

def rebuttalSection : DebateSection :=
  { name := "Rebuttals"
    description := "Candidates respond to their opponent's arguments."
    speaker_order := [1, 0]
    max_tokens := 400 }

def closingSection : DebateSection :=
  { name := "Closing Statements"
    description := "Final remarks and summation of positions."
    speaker_order := [0, 1]
    max_tokens := 250 }

/-- `PresidentialDebateFormat::sections`: one opening section,
`mainRounds f.rounds` main-argument sections, rebuttals, closing. -/
def sections (f : PresidentialDebateFormat) : List DebateSection :=
  openingSection ::
    ((List.range (mainRounds f.rounds)).map mainSection ++
      [rebuttalSection, closingSection])

def toFormat (f : PresidentialDebateFormat) : DebateFormat :=
  { name := "presidential"
    display_name := "Presidential Debate (Michael Douglass Format)"
    sections := f.sections
    min_participants := 2
    max_participants := 2
    system_prompt := presidentialSystemPrompt }

end PresidentialDebateFormat

/-- Rust `str::to_lowercase`, modelled as per-character ASCII folding
(Rust additionally lowercases non-ASCII; the format names involved are
ASCII). -/
def rustToLowercase (s : String) : String :=
  String.mk (s.data.map Char.toLower)

/-- `get_format` (debate_format.rs): lookup by lowercased name. -/
def get_format (name : String) (rounds : Nat) : Option DebateFormat :=
  if rustToLowercase name = "presidential" then
    some (PresidentialDebateFormat.new rounds).toFormat
  else
    none

/-- `available_formats` (debate_format.rs). -/
def available_formats : List String :=
  ["presidential"]

/-! ### C4: the presidential section list -/

theorem mainRounds_of_lt {R : Nat} (h4 : 4 ≤ R) (h31 : R < 2 ^ 31) :
    mainRounds R = max (R - 3) 1 := by
  have hmod : R % 2 ^ 32 = R := Nat.mod_eq_of_lt (by omega)
  rw [mainRounds, i32OfU32, hmod, if_pos h31,
    Int.emod_eq_of_lt (by omega) (by omega)]
  omega

/-- The claim's statement fails on the program: `rounds` is a `u32` and
`sections` computes `(rounds as i32 - 3).max(1)`, so at
`rounds = 2^31 + 3 = 2147483651` (where `4 ≤ rounds`) the cast is the
negative value `-(2^31 - 3)`, exactly one main round is emitted and the
list has 4 sections — not the claimed
`1 + max (R - 3) 1 + 2 = 2147483651`. -/
theorem C4_presidential_sections_counterexample :
    ¬((PresidentialDebateFormat.new 2147483651).sections.length =
      1 + max (2147483651 - 3) 1 + 2) := by
  decide

/-- C4 (amended): for every round count `R` the section list equals the
list for `max R 4`, and for `R < 4` it is identical to the list for 4;
the length formula `1 + max (R−3) 1 + 2`, the opening/closing
endpoints, and the alternating `[0,1]`/`[1,0]` main-round speaker
orders hold for every `4 ≤ R < 2^31` — the range on which the source's
`u32 as i32` cast is value-preserving.  (For `R ≥ 2^31 + 3` the cast
wraps negative and exactly one main round is produced, falsifying the
original universally quantified claim; see the counterexample.) -/
theorem C4_presidential_sections (R : Nat) :
    ((PresidentialDebateFormat.new R).sections =
      (PresidentialDebateFormat.new (max R 4)).sections) ∧
    (4 ≤ R → R < 2 ^ 31 →
      (PresidentialDebateFormat.new R).sections.length =
          1 + max (R - 3) 1 + 2 ∧
        ((PresidentialDebateFormat.new R).sections.head? =
          some PresidentialDebateFormat.openingSection) ∧
        ((PresidentialDebateFormat.new R).sections.getLast? =
          some PresidentialDebateFormat.closingSection) ∧
        ∀ i < max (R - 3) 1,
          ∃ sec, (PresidentialDebateFormat.new R).sections[i + 1]? = some sec ∧
            sec.speaker_order = (if i % 2 = 0 then [0, 1] else [1, 0]) ∧
            sec.name = "Main Arguments - Round " ++ toString (i + 1)) ∧
    (R < 4 →
      (PresidentialDebateFormat.new R).sections =
        (PresidentialDebateFormat.new 4).sections) := by
  refine ⟨?_, ?_, ?_⟩
  · show PresidentialDebateFormat.sections ⟨max R 4⟩ =
      PresidentialDebateFormat.sections ⟨max (max R 4) 4⟩
    rw [Nat.max_assoc, Nat.max_self]
  · intro hR h31
    have hrounds : max R 4 = R := Nat.max_eq_left hR
    have hmr : mainRounds R = max (R - 3) 1 := mainRounds_of_lt hR h31
    refine ⟨?_, ?_, ?_, ?_⟩
    · simp [PresidentialDebateFormat.new, PresidentialDebateFormat.sections,
        hrounds, hmr]
      omega
    · simp [PresidentialDebateFormat.new, PresidentialDebateFormat.sections]
    · simp only [PresidentialDebateFormat.new, PresidentialDebateFormat.sections]
      rw [show PresidentialDebateFormat.rebuttalSection ::
            [PresidentialDebateFormat.closingSection] =
          [PresidentialDebateFormat.rebuttalSection] ++
            [PresidentialDebateFormat.closingSection] from rfl,
        ← List.append_assoc, ← List.cons_append, List.getLast?_concat]
    · intro i hi
      refine ⟨PresidentialDebateFormat.mainSection i, ?_, ?_, rfl⟩
      · simp only [PresidentialDebateFormat.new, PresidentialDebateFormat.sections,
          hrounds, hmr]
        rw [List.getElem?_cons_succ, List.getElem?_append_left
          (by simpa using hi), List.getElem?_map, List.getElem?_range hi]
        rfl
      · simp only [PresidentialDebateFormat.mainSection]
        rcases Nat.even_or_odd i with he | ho
        · have : i % 2 = 0 := Nat.even_iff.mp he
          simp [this]
        · have : i % 2 = 1 := Nat.odd_iff.mp ho
          simp [this]
  · intro hR
    show PresidentialDebateFormat.sections ⟨max R 4⟩ =
      PresidentialDebateFormat.sections ⟨max 4 4⟩
    rw [Nat.max_eq_right (Nat.le_of_lt hR), Nat.max_self]

/-- Witness for C4 at `R = 6` (the `4 ≤ R < 2^31` branch) and `R = 2`
(the `R < 4` branch). -/
theorem C4_presidential_sections_witness :
    ((PresidentialDebateFormat.new 6).sections.length =
        1 + max (6 - 3) 1 + 2 ∧
      ((PresidentialDebateFormat.new 6).sections.head? =
        some PresidentialDebateFormat.openingSection) ∧
      ((PresidentialDebateFormat.new 6).sections.getLast? =
        some PresidentialDebateFormat.closingSection) ∧
      ∀ i < max (6 - 3) 1,
        ∃ sec, (PresidentialDebateFormat.new 6).sections[i + 1]? = some sec ∧
          sec.speaker_order = (if i % 2 = 0 then [0, 1] else [1, 0]) ∧
          sec.name = "Main Arguments - Round " ++ toString (i + 1)) ∧
    (PresidentialDebateFormat.new 2).sections =
      (PresidentialDebateFormat.new 4).sections :=
  ⟨(C4_presidential_sections 6).2.1 (by decide) (by decide),
   (C4_presidential_sections 2).2.2 (by decide)⟩

/-! ### C9: `get_format` name lookup -/

/-- C9: `get_format` succeeds exactly on names whose (per-character)
lowercasing is `"presidential"` — so on every casing of
`"presidential"` — and any format it returns has name
`"presidential"`; every other name yields `none`. -/
theorem C9_get_format_case_insensitive (name : String) (rounds : Nat) :
    ((get_format name rounds).isSome ↔
      rustToLowercase name = "presidential") ∧
    (∀ f, get_format name rounds = some f → f.name = "presidential") := by
  constructor
  · constructor
    · intro h
      by_contra hne
      rw [get_format, if_neg hne] at h
      simp at h
    · intro h
      rw [get_format, if_pos h]
      rfl
  · intro f hf
    by_cases h : rustToLowercase name = "presidential"
    · rw [get_format, if_pos h] at hf
      cases hf
      rfl
    · rw [get_format, if_neg h] at hf
      cases hf

/-- Witness for C9 at the mixed-case name `"PrEsIdEnTiAl"` and the
unknown name `"unknown_format"`. -/
theorem C9_get_format_case_insensitive_witness :
    (get_format "PrEsIdEnTiAl" 6).isSome ∧
      (get_format "unknown_format" 6).isSome = false :=
  ⟨(C9_get_format_case_insensitive "PrEsIdEnTiAl" 6).1.mpr (by decide),
   by decide⟩

/-! ## Audio helpers (`tts.rs`) -/

/-- `combine_audio_segments` (tts.rs).  The `f32` samples are modelled
by a type parameter `α` — no arithmetic is ever performed on a sample —
with `zero` standing for the literal `0.0` silence sample.
`gapSamples` is the value `(gap_seconds * sample_rate as f32) as usize`
the source computes before the loop.  The source loop pushes, for each
segment after the first, the silence block and then the segment;
`s :: rest` makes the "after the first" (`i > 0`) test structural. -/
def combine_audio_segments {α : Type} (segments : List (List α))
    (gapSamples : Nat) (zero : α) : List α :=
  match segments with
  | [] => []
  | s :: rest => s ++ rest.flatMap (fun seg => List.replicate gapSamples zero ++ seg)

theorem length_flatMap_gap {α : Type} (G : Nat) (zero : α) :
    ∀ rest : List (List α),
      (rest.flatMap (fun seg => List.replicate G zero ++ seg)).length =
        G * rest.length + (rest.map List.length).sum := by
  intro rest
  induction rest with
  | nil => simp
  | cons r t ih =>
    simp only [List.flatMap_cons, List.length_append, ih, List.map_cons,
      List.sum_cons, List.length_replicate, List.length_cons]
    ring

/-- C8: for a non-empty list of segments the combined output has length
`sum Li + G * (n − 1)`, and between any two adjacent segments exactly
`G` zero samples are inserted: splitting the segment list anywhere
splits the output around one `G`-sample silence block. -/
theorem C8_combine_audio_segments (α : Type) (zero : α) (G : Nat) :
    (∀ segments : List (List α), segments ≠ [] →
      (combine_audio_segments segments G zero).length =
        (segments.map List.length).sum + G * (segments.length - 1)) ∧
    (∀ s₁ s₂ : List (List α), s₁ ≠ [] → s₂ ≠ [] →
      combine_audio_segments (s₁ ++ s₂) G zero =
        combine_audio_segments s₁ G zero ++ List.replicate G zero ++
          combine_audio_segments s₂ G zero) := by
  constructor
  · intro segments hne
    obtain ⟨s, rest, rfl⟩ := List.exists_cons_of_ne_nil hne
    simp only [combine_audio_segments, List.length_append,
      length_flatMap_gap, List.map_cons, List.sum_cons, List.length_cons,
      Nat.add_sub_cancel]
    ring
  · intro s₁ s₂ h₁ h₂
    obtain ⟨a, t₁, rfl⟩ := List.exists_cons_of_ne_nil h₁
    obtain ⟨b, t₂, rfl⟩ := List.exists_cons_of_ne_nil h₂
    simp only [List.cons_append, combine_audio_segments, List.flatMap_append,
      List.flatMap_cons, List.append_assoc]

/-- Witness for C8 over `Int` samples with `G = 2`. -/
theorem C8_combine_audio_segments_witness :
    (combine_audio_segments [[(1 : Int), 1], [2]] 2 0).length =
        ([[(1 : Int), 1], [2]].map List.length).sum + 2 * (2 - 1) ∧
      combine_audio_segments ([[(1 : Int), 1]] ++ [[2]]) 2 0 =
        combine_audio_segments [[(1 : Int), 1]] 2 0 ++ List.replicate 2 0 ++
          combine_audio_segments [[(2 : Int)]] 2 0 :=
  ⟨(C8_combine_audio_segments Int 0 2).1 _ (by decide),
   (C8_combine_audio_segments Int 0 2).2 _ _ (by decide) (by decide)⟩

/-- Rust std `char::is_alphanumeric` (Unicode `Alphabetic` or category
Nd/Nl/No), restricted to the ranges exercised below: ASCII
alphanumerics, the Latin-1/Latin-Extended letter block U+00C0–U+024F
minus `×` (U+00D7) and `÷` (U+00F7), and the CJK Unified Ideographs
U+4E00–U+9FFF (all alphabetic in Unicode).  Characters outside these
ranges (on which no statement below depends) are mapped to `false`. -/
def rustIsAlphanumeric (c : Char) : Bool :=
  ('0' ≤ c && c ≤ '9') || ('A' ≤ c && c ≤ 'Z') || ('a' ≤ c && c ≤ 'z') ||
  (0xC0 ≤ c.val && c.val ≤ 0x24F && c.val ≠ 0xD7 && c.val ≠ 0xF7) ||
  (0x4E00 ≤ c.val && c.val ≤ 0x9FFF)

/-- Rust byte slicing `&s[..n]`: `some` prefix when byte index `n` falls
on a character boundary, `none` (a panic in Rust) otherwise. -/
def bytePrefix : Nat → List Char → Option (List Char)
  | 0, _ => some []
  | _ + 1, [] => none
  | n + 1, c :: cs =>
    if c.utf8Size ≤ n + 1 then
      match bytePrefix (n + 1 - c.utf8Size) cs with
      | some pre => some (c :: pre)
      | none => none
    else none

/-- `generate_output_filename` (tts.rs).  Characters that are not
alphanumeric, space, `'-'` or `'_'` are replaced by `'_'`; if the
sanitized topic exceeds 50 bytes it is byte-sliced at 50
(`&sanitized[..50]`, which panics — modelled as `none` — when byte 50
is not a character boundary), then trimmed and wrapped as
`"DebateAI - {}.wav"`. -/
def generate_output_filename (topic : String) : Option String :=
  let sanitized : List Char := topic.data.map (fun c =>
    if rustIsAlphanumeric c || c = ' ' || c = '-' || c = '_' then c else '_')
  let truncated : Option (List Char) :=
    if utf8Len sanitized > 50 then bytePrefix 50 sanitized else some sanitized
  match truncated with
  | some t => some ("DebateAI - " ++ String.mk (rustTrim t) ++ ".wav")
  | none => none

/-- C10 evidence: on the repository's own test input the function
returns the expected name, but on a topic of 17 CJK characters
(17 × 3 = 51 bytes after sanitization, all characters kept because they
are alphanumeric) the byte slice `&sanitized[..50]` hits the middle of
a character and the function panics (`none`): it does **not** return
normally for every topic. -/
theorem C10_generate_output_filename_panic :
    generate_output_filename "Should AI be open source?" =
        some "DebateAI - Should AI be open source_.wav" ∧
      generate_output_filename (String.mk (List.replicate 17 '日')) = none := by
  constructor
  · decide
  · decide

/-! ## The orchestrator (`orchestrator.rs`) -/

structure DebateConfig where
  topic : String
  api_base : String
  api_key : String
deriving DecidableEq, Repr

/-- A chat message, abstracting `ChatCompletionRequestMessage` to its
role/content pair (the other fields are always `None` in this code). -/
inductive Msg where
  | system (content : String)
  | user (content : String)
  | assistant (content : String)
deriving DecidableEq, Repr

/-- A transcript entry.  The Rust field `section` is `sectionName` here
(`section` is reserved in Lean). -/
structure DebateMessage where
  sectionName : String
  speaker_index : Nat
  speaker_name : String
  content : String
deriving DecidableEq, Repr

structure DebateOrchestrator where
  config : DebateConfig
  participants : List AIParticipant
  format : DebateFormat
  histories : List (List Msg)
  transcript : List DebateMessage

/-- The system prompt seeded for participant `i` by
`DebateOrchestrator::new`: the custom prompt if set, otherwise the
format prompt over topic, role-qualified display name and the name of
the fixed opponent (index 1 for participant 0, else index 0). -/
def seededSystemPrompt (config : DebateConfig) (format : DebateFormat)
    (all : List AIParticipant) (i : Nat) (p : AIParticipant) : String :=
  let opponent_idx := if i = 0 then 1 else 0
  let opponent_name := ((all[opponent_idx]?).map AIParticipant.name).getD "Opponent"
  p.custom_system_prompt.getD
    (format.system_prompt config.topic p.display_name_with_role opponent_name)

/-- Seed one history per participant (`enumerate` index threaded as
`k`). -/
def seedAux (config : DebateConfig) (format : DebateFormat)
    (all : List AIParticipant) : Nat → List AIParticipant → List (List Msg)
  | _, [] => []
  | k, p :: ps =>
    [Msg.system (seededSystemPrompt config format all k p)] ::
      seedAux config format all (k + 1) ps

/-- `DebateOrchestrator::new`: validate the participant count against
the format's bounds, then seed every history with exactly one system
message.  Construction is pure — it takes no completion client and
performs no request. -/
def DebateOrchestrator.new (config : DebateConfig)
    (participants : List AIParticipant) (format : DebateFormat) :
    Except DebateError DebateOrchestrator :=
  let participant_count := participants.length
  let minP := format.min_participants
  let maxP := format.max_participants
  if participant_count < minP ∨ participant_count > maxP then
    .error (.InvalidParticipantCount minP maxP participant_count)
  else
    .ok { config := config
          participants := participants
          format := format
          histories := seedAux config format participants 0 participants
          transcript := [] }

theorem seedAux_length (config : DebateConfig) (format : DebateFormat)
    (all : List AIParticipant) :
    ∀ (ps : List AIParticipant) (k : Nat),
      (seedAux config format all k ps).length = ps.length := by
  intro ps
  induction ps with
  | nil => intro k; rfl
  | cons p t ih => intro k; simp only [seedAux, List.length_cons, ih]

theorem seedAux_getD (config : DebateConfig) (format : DebateFormat)
    (all : List AIParticipant) :
    ∀ (ps : List AIParticipant) (k i : Nat), i < ps.length →
      (seedAux config format all k ps).getD i [] =
        [Msg.system (seededSystemPrompt config format all (k + i)
          (ps.getD i dummyParticipant))] := by
  intro ps
  induction ps with
  | nil => intro k i h; simp at h
  | cons p t ih =>
    intro k i h
    cases i with
    | zero => simp [seedAux]
    | succ j =>
      have hj : j < t.length := by simpa using h
      show (seedAux config format all (k + 1) t).getD j [] = _
      rw [ih (k + 1) j hj]
      have : k + 1 + j = k + (j + 1) := by omega
      rw [this]
      rfl

/-! ### C6: construction validation -/

/-- C6: construction fails, with an invalid-participant-count error
carrying the format's bounds and the actual count, exactly when the
participant count is outside `[min_participants, max_participants]`;
on success every participant gets exactly one seeded history entry and
the transcript starts empty.  (`new` is pure and takes no completion
client, so no completion request can occur on any path.) -/
theorem C6_construction_validation (config : DebateConfig)
    (participants : List AIParticipant) (format : DebateFormat) :
    ((∃ e, DebateOrchestrator.new config participants format = .error e) ↔
      (participants.length < format.min_participants ∨
        format.max_participants < participants.length)) ∧
    (∀ e, DebateOrchestrator.new config participants format = .error e →
      e = .InvalidParticipantCount format.min_participants
        format.max_participants participants.length) ∧
    (∀ o, DebateOrchestrator.new config participants format = .ok o →
      o.histories.length = participants.length ∧ o.transcript = []) := by
  by_cases h : participants.length < format.min_participants ∨
      format.max_participants < participants.length
  · have hnew : DebateOrchestrator.new config participants format =
        .error (.InvalidParticipantCount format.min_participants
          format.max_participants participants.length) := by
      rw [DebateOrchestrator.new, if_pos h]
    refine ⟨⟨fun _ => h, fun _ => ⟨_, hnew⟩⟩, ?_, ?_⟩
    · intro e he
      rw [hnew] at he
      cases he
      rfl
    · intro o ho
      rw [hnew] at ho
      cases ho
  · have hnew : DebateOrchestrator.new config participants format =
        .ok { config := config
              participants := participants
              format := format
              histories := seedAux config format participants 0 participants
              transcript := [] } := by
      rw [DebateOrchestrator.new, if_neg h]
    refine ⟨⟨?_, fun hh => absurd hh h⟩, ?_, ?_⟩
    · intro ⟨e, he⟩
      rw [hnew] at he
      cases he
    · intro e he
      rw [hnew] at he
      cases he
    · intro o ho
      rw [hnew] at ho
      cases ho
      exact ⟨seedAux_length .., rfl⟩

/-- Witness for C6: the presidential format demands exactly two
participants, so one participant fails with
`InvalidParticipantCount 2 2 1` and two participants succeed. -/
theorem C6_construction_validation_witness :
    (∀ e, DebateOrchestrator.new ⟨"t", "b", "k"⟩ [dummyParticipant]
        (PresidentialDebateFormat.new 4).toFormat = .error e →
      e = .InvalidParticipantCount 2 2 1) ∧
    (∃ e, DebateOrchestrator.new ⟨"t", "b", "k"⟩ [dummyParticipant]
        (PresidentialDebateFormat.new 4).toFormat = .error e) ∧
    ¬∃ e, DebateOrchestrator.new ⟨"t", "b", "k"⟩
        [dummyParticipant, dummyParticipant]
        (PresidentialDebateFormat.new 4).toFormat = .error e :=
  ⟨fun e he =>
    (C6_construction_validation ⟨"t", "b", "k"⟩ [dummyParticipant]
      (PresidentialDebateFormat.new 4).toFormat).2.1 e he,
   (C6_construction_validation ⟨"t", "b", "k"⟩ [dummyParticipant]
      (PresidentialDebateFormat.new 4).toFormat).1.mpr (by decide),
   fun he =>
    absurd ((C6_construction_validation ⟨"t", "b", "k"⟩
      [dummyParticipant, dummyParticipant]
      (PresidentialDebateFormat.new 4).toFormat).1.mp he) (by decide)⟩

/-! ### C5: the completion client's transport retry -/

/-- `DebateOrchestrator::get_completion`'s retry loop.  `transport n`
is the outcome of the `n`-th `client.chat().create(...)` call: `.ok`
carries the first choice's content (already defaulted to `""` when
absent, as the source does), `.error` carries the transport/endpoint
error.  Returns the surfaced result together with the number of
attempts made and the backoff sleep trace in seconds (the source sleeps
`1 << attempt` seconds before every attempt but the first). -/
def getCompletionAux (transport : Nat → Except String String) :
    Option String → Nat → Nat → Except DebateError String × Nat × List Nat
  | lastE, _, 0 =>
    (.error (match lastE with
      | some e => .OpenAIError e
      | none => .ConfigError "Unknown API error after retries"), 0, [])
  | _, attempt, fuel + 1 =>
    let sleeps : List Nat := if attempt > 0 then [2 ^ attempt] else []
    match transport attempt with
    | .ok content => (.ok content, 1, sleeps)
    | .error e =>
      let r := getCompletionAux transport (some e) (attempt + 1) fuel
      (r.1, r.2.1 + 1, sleeps ++ r.2.2)

/-- `get_completion`'s retry loop with `max_retries = 3`. -/
def get_completion (transport : Nat → Except String String) :
    Except DebateError String × Nat × List Nat :=
  getCompletionAux transport none 0 3

/-- C5: at most 3 attempts; the first fires immediately and attempts 2
and 3 are preceded by sleeps of exactly 2 and 4 seconds; every error
triggers a retry (success at attempt `k+1` after `k` errors is
surfaced); after 3 errors the last error is surfaced as a single
`OpenAIError` value. -/
theorem C5_completion_retry (transport : Nat → Except String String) :
    (get_completion transport).2.1 ≤ 3 ∧
    (get_completion transport).2.2 =
      [2, 4].take ((get_completion transport).2.1 - 1) ∧
    (∀ c, transport 0 = .ok c →
      (get_completion transport).1 = .ok c ∧
        (get_completion transport).2.1 = 1) ∧
    (∀ e0 c, transport 0 = .error e0 → transport 1 = .ok c →
      (get_completion transport).1 = .ok c ∧
        (get_completion transport).2.1 = 2) ∧
    (∀ e0 e1 c, transport 0 = .error e0 → transport 1 = .error e1 →
      transport 2 = .ok c →
      (get_completion transport).1 = .ok c ∧
        (get_completion transport).2.1 = 3) ∧
    (∀ e0 e1 e2, transport 0 = .error e0 → transport 1 = .error e1 →
      transport 2 = .error e2 →
      (get_completion transport).1 = .error (.OpenAIError e2) ∧
        (get_completion transport).2.1 = 3) := by
  cases h0 : transport 0 with
  | ok c0 =>
    have hg : get_completion transport = (.ok c0, 1, []) := by
      simp [get_completion, getCompletionAux, h0]
    rw [hg]
    refine ⟨?_, ?_, ?_, ?_, ?_, ?_⟩
    · show (1 : Nat) ≤ 3; decide
    · rfl
    · intro c hc; cases hc; exact ⟨rfl, rfl⟩
    · intro e0 c he0 _; cases he0
    · intro e0 e1 c he0 _ _; cases he0
    · intro e0 e1 e2 he0 _ _; cases he0
  | error e0 =>
    cases h1 : transport 1 with
    | ok c1 =>
      have hg : get_completion transport = (.ok c1, 2, [2]) := by
        simp [get_completion, getCompletionAux, h0, h1]
      rw [hg]
      refine ⟨?_, ?_, ?_, ?_, ?_, ?_⟩
      · show (2 : Nat) ≤ 3; decide
      · rfl
      · intro c hc; cases hc
      · intro e c _ hc; cases hc; exact ⟨rfl, rfl⟩
      · intro x e1 c _ he1 _; cases he1
      · intro x e1 e2 _ he1 _; cases he1
    | error e1 =>
      cases h2 : transport 2 with
      | ok c2 =>
        have hg : get_completion transport = (.ok c2, 3, [2, 4]) := by
          simp [get_completion, getCompletionAux, h0, h1, h2]
        rw [hg]
        refine ⟨?_, ?_, ?_, ?_, ?_, ?_⟩
        · show (3 : Nat) ≤ 3; decide
        · rfl
        · intro c hc; cases hc
        · intro e c _ hc; cases hc
        · intro x y c _ _ hc; cases hc; exact ⟨rfl, rfl⟩
        · intro x y e2 _ _ he2; cases he2
      | error e2 =>
        have hg : get_completion transport =
            (.error (.OpenAIError e2), 3, [2, 4]) := by
          simp [get_completion, getCompletionAux, h0, h1, h2]
        rw [hg]
        refine ⟨?_, ?_, ?_, ?_, ?_, ?_⟩
        · show (3 : Nat) ≤ 3; decide
        · rfl
        · intro c hc; cases hc
        · intro e c _ hc; cases hc
        · intro x y c _ _ hc; cases hc
        · intro x y z _ _ hz; cases hz; exact ⟨rfl, rfl⟩

/-- Witness for C5 with a scripted transport that fails twice and then
succeeds: three attempts, sleeps `[2, 4]`, the 3rd response surfaced. -/
theorem C5_completion_retry_witness :
    (get_completion (fun n =>
        if n < 2 then .error ("boom" ++ toString n) else .ok "ok")).1 =
      .ok "ok" ∧
    (get_completion (fun n =>
        if n < 2 then .error ("boom" ++ toString n) else .ok "ok")).2.1 = 3 ∧
    (get_completion (fun n =>
        if n < 2 then .error ("boom" ++ toString n) else .ok "ok")).2.2 =
      [2, 4] :=
  ⟨((C5_completion_retry _).2.2.2.2.1 "boom0" "boom1" "ok"
      rfl rfl rfl).1,
   ((C5_completion_retry _).2.2.2.2.1 "boom0" "boom1" "ok"
      rfl rfl rfl).2,
   by decide⟩

/-! ### The turn state machine (`run_section` / `run`)

A run is driven by an abstract completion client
`client : Nat → Except DebateError String`: `client n` is the outcome
of the `n`-th `get_completion` call of the run (a global call counter
is threaded through, so scripted clients are expressible and the
"exactly 2 completion calls" observations are statable).  Events are
not modelled (the callback is optional in the source and writes no
state); the sleep traces of the retry loops are returned instead. -/

/-- The synthesized user turn for a section:
`"[{name} - {description}]\nPlease provide your {lowercased name}."`. -/
def sectionPrompt (sec : DebateSection) : String :=
  "[" ++ sec.name ++ " - " ++ sec.description ++
    "]\nPlease provide your " ++ rustToLowercase sec.name ++ "."

/-- The opponent observation broadcast to every non-speaker:
`"[Opponent {name} said]: {text}"`. -/
def opponentMsg (speakerName content : String) : String :=
  "[Opponent " ++ speakerName ++ " said]: " ++ content

/-- The acceptance test of the empty-response retry loop:
`!sanitized.trim().is_empty() && sanitized.trim().len() > 10`
(`len()` is the UTF-8 byte length). -/
def acceptB (s : String) : Bool :=
  !(rustTrim s.data).isEmpty && utf8Len (rustTrim s.data) > 10

/-- The empty-response retry loop (`for attempt in 0..max_empty_retries`
with `max_empty_retries = 3` in `run_section`): call the client,
sanitize, stop once acceptable; otherwise, between attempts (the
source's `attempt < max_empty_retries - 1` test), sleep 2 seconds and
go on to the next attempt.  `base` is the global call counter on
entry; returns the last sanitized response (which ended the loop,
acceptable or not), the number of calls made, and the sleep trace.
`fuel` counts the remaining loop iterations (`3 - attempt`). -/
def emptyRetryAux (client : Nat → Except DebateError String)
    (base : Nat) : Nat → Nat → Except DebateError (String × Nat × List Nat)
  | _, 0 => .ok ("", 0, [])
  | attempt, fuel + 1 =>
    match client (base + attempt) with
    | .error e => .error e
    | .ok response =>
      if acceptB (sanitizeStr response) then
        .ok (sanitizeStr response, 1, [])
      else if attempt < 3 - 1 then
        match emptyRetryAux client base (attempt + 1) fuel with
        | .error e => .error e
        | .ok (s', calls, sleeps) => .ok (s', calls + 1, 2 :: sleeps)
      else
        .ok (sanitizeStr response, 1, [])

/-- The empty-response retry loop with `max_empty_retries = 3`. -/
def emptyRetry (client : Nat → Except DebateError String) (base : Nat) :
    Except DebateError (String × Nat × List Nat) :=
  emptyRetryAux client base 0 3

/-- `self.histories[idx].push(m)`. -/
def appendAt : List (List Msg) → Nat → Msg → List (List Msg)
  | [], _, _ => []
  | h :: hs, 0, m => (h ++ [m]) :: hs
  | h :: hs, n + 1, m => h :: appendAt hs n m

/-- The broadcast loop `for (i, history) in histories.iter_mut().enumerate()`
pushing the observation to every history except the speaker's;
`k` is the enumeration offset. -/
def broadcastObs (speaker : Nat) (obs : Msg) : Nat → List (List Msg) → List (List Msg)
  | _, [] => []
  | k, h :: hs =>
    (if k = speaker then h else h ++ [obs]) :: broadcastObs speaker obs (k + 1) hs

/-- One scheduled speaker's turn inside `run_section`: skip out-of-range
indices, push the section prompt, run the empty-response retry loop,
reject degenerate content fatally, record the transcript entry, push
the assistant entry and broadcast the observation. -/
def runTurn (client : Nat → Except DebateError String) (sec : DebateSection)
    (speaker_idx : Nat) (st : DebateOrchestrator) (calls : Nat) :
    Except DebateError (DebateOrchestrator × Nat) :=
  if st.participants.length ≤ speaker_idx then .ok (st, calls)
  else
    let participant := st.participants.getD speaker_idx dummyParticipant
    let st1 := { st with
      histories := appendAt st.histories speaker_idx
        (.user (sectionPrompt sec)) }
    match emptyRetry client calls with
    | .error e => .error e
    | .ok (s, used, _) =>
      if acceptB s then
        let message : DebateMessage :=
          ⟨sec.name, speaker_idx, participant.name, s⟩
        let st2 := { st1 with transcript := st1.transcript ++ [message] }
        let st3 := { st2 with
          histories := appendAt st2.histories speaker_idx (.assistant s) }
        let st4 := { st3 with
          histories := broadcastObs speaker_idx
            (.user (opponentMsg participant.name s)) 0 st3.histories }
        .ok (st4, calls + used)
      else
        .error (.ConfigError ("AI participant '" ++ participant.name ++
          "' returned empty response after 3 retries. Debate cannot continue."))

/-- The speakers of one section, in scheduled order. -/
def runSpeakers (client : Nat → Except DebateError String)
    (sec : DebateSection) : List Nat → DebateOrchestrator × Nat →
    Except DebateError (DebateOrchestrator × Nat)
  | [], st => .ok st
  | idx :: rest, (st, calls) =>
    match runTurn client sec idx st calls with
    | .error e => .error e
    | .ok st' => runSpeakers client sec rest st'

/-- `run_section`: the speakers of the section in order. -/
def runSection (client : Nat → Except DebateError String)
    (sec : DebateSection) (st : DebateOrchestrator × Nat) :
    Except DebateError (DebateOrchestrator × Nat) :=
  runSpeakers client sec sec.speaker_order st

/-- The section loop of `run`. -/
def runSections (client : Nat → Except DebateError String) :
    List DebateSection → DebateOrchestrator × Nat →
    Except DebateError (DebateOrchestrator × Nat)
  | [], st => .ok st
  | sec :: rest, st =>
    match runSection client sec st with
    | .error e => .error e
    | .ok st' => runSections client rest st'

/-- `run`: iterate the format's sections, then return the transcript. -/
def run (client : Nat → Except DebateError String)
    (o : DebateOrchestrator) :
    Except DebateError (List DebateMessage × DebateOrchestrator × Nat) :=
  match runSections client o.format.sections (o, 0) with
  | .error e => .error e
  | .ok (o', calls) => .ok (o'.transcript, o', calls)

/-! ### C1: the empty-response retry loop -/

/-- Full characterization of a non-transport-error outcome of the
empty-response retry loop: between 1 and 3 completion calls; the
result is the sanitization of the last call's response; every earlier
call's sanitization was rejected; one 2-second sleep between
consecutive attempts and none after the last; the loop ends either by
acceptance or by exhausting all 3 attempts with a rejected response. -/
theorem emptyRetry_ok {client : Nat → Except DebateError String}
    {base : Nat} {s : String} {c : Nat} {tr : List Nat}
    (h : emptyRetry client base = .ok (s, c, tr)) :
    1 ≤ c ∧ c ≤ 3 ∧
    (∃ resp, client (base + (c - 1)) = .ok resp ∧ s = sanitizeStr resp) ∧
    (∀ j < c - 1, ∃ resp, client (base + j) = .ok resp ∧
      acceptB (sanitizeStr resp) = false) ∧
    tr = List.replicate (c - 1) 2 ∧
    (acceptB s = true ∨ (c = 3 ∧ acceptB s = false)) := by
  cases h0 : client base with
  | error e =>
    rw [show emptyRetry client base = .error e by
      simp [emptyRetry, emptyRetryAux, h0]] at h
    cases h
  | ok r0 =>
    obtain ⟨s0, hs0⟩ : ∃ x, sanitizeStr r0 = x := ⟨_, rfl⟩
    by_cases a0 : acceptB s0 = true
    · rw [show emptyRetry client base = .ok (s0, 1, []) by
        simp [emptyRetry, emptyRetryAux, h0, hs0, a0]] at h
      cases h
      refine ⟨le_refl 1, by omega, ⟨r0, by simpa using h0, hs0.symm⟩, ?_, rfl,
        Or.inl a0⟩
      intro j hj
      omega
    · cases h1 : client (base + 1) with
      | error e =>
        rw [show emptyRetry client base = .error e by
          simp [emptyRetry, emptyRetryAux, h0, hs0, a0, h1]] at h
        cases h
      | ok r1 =>
        obtain ⟨s1, hs1⟩ : ∃ x, sanitizeStr r1 = x := ⟨_, rfl⟩
        by_cases a1 : acceptB s1 = true
        · rw [show emptyRetry client base = .ok (s1, 2, [2]) by
            simp [emptyRetry, emptyRetryAux, h0, hs0, a0, h1, hs1, a1]] at h
          cases h
          refine ⟨by omega, by omega, ⟨r1, h1, hs1.symm⟩, ?_, rfl, Or.inl a1⟩
          intro j hj
          have hj0 : j = 0 := by omega
          subst hj0
          refine ⟨r0, by simpa using h0, ?_⟩
          rw [hs0]
          exact Bool.eq_false_iff.mpr a0
        · cases h2 : client (base + 2) with
          | error e =>
            rw [show emptyRetry client base = .error e by
              simp [emptyRetry, emptyRetryAux, h0, hs0, a0, h1, hs1, a1,
                h2]] at h
            cases h
          | ok r2 =>
            obtain ⟨s2, hs2⟩ : ∃ x, sanitizeStr r2 = x := ⟨_, rfl⟩
            have hval : emptyRetry client base = .ok (s2, 3, [2, 2]) := by
              simp [emptyRetry, emptyRetryAux, h0, hs0, a0, h1, hs1, a1, h2,
                hs2]
            rw [hval] at h
            cases h
            refine ⟨by omega, by omega, ⟨r2, h2, hs2.symm⟩, ?_, rfl, ?_⟩
            · intro j hj
              interval_cases j
              · refine ⟨r0, by simpa using h0, ?_⟩
                rw [hs0]
                exact Bool.eq_false_iff.mpr a0
              · refine ⟨r1, h1, ?_⟩
                rw [hs1]
                exact Bool.eq_false_iff.mpr a1
            · have hb : ∀ b : Bool, b = true ∨ (3 = 3 ∧ b = false) := by
                intro b
                cases b
                · exact Or.inr ⟨rfl, rfl⟩
                · exact Or.inl rfl
              exact hb _

/-- If all three responses sanitize to rejected content, the loop
returns the third sanitized response with 3 calls and 2 sleeps. -/
theorem emptyRetry_exhausted {client : Nat → Except DebateError String}
    {base : Nat} {r0 r1 r2 : String}
    (h0 : client (base + 0) = .ok r0) (h1 : client (base + 1) = .ok r1)
    (h2 : client (base + 2) = .ok r2)
    (a0 : acceptB (sanitizeStr r0) = false)
    (a1 : acceptB (sanitizeStr r1) = false)
    (a2 : acceptB (sanitizeStr r2) = false) :
    emptyRetry client base = .ok (sanitizeStr r2, 3, [2, 2]) := by
  rw [Nat.add_zero] at h0
  simp [emptyRetry, emptyRetryAux, h0, h1, h2, a0, a1, a2]

/-- If the three responses of a turn all sanitize to rejected content,
the turn fails with the exhaustion error naming the participant and the
retry count. -/
theorem runTurn_exhausted {client : Nat → Except DebateError String}
    {sec : DebateSection} {idx : Nat} {st : DebateOrchestrator}
    {calls : Nat} {r0 r1 r2 : String}
    (hidx : idx < st.participants.length)
    (h0 : client (calls + 0) = .ok r0) (h1 : client (calls + 1) = .ok r1)
    (h2 : client (calls + 2) = .ok r2)
    (a0 : acceptB (sanitizeStr r0) = false)
    (a1 : acceptB (sanitizeStr r1) = false)
    (a2 : acceptB (sanitizeStr r2) = false) :
    runTurn client sec idx st calls = .error (.ConfigError
      ("AI participant '" ++
        (st.participants.getD idx dummyParticipant).name ++
        "' returned empty response after 3 retries. Debate cannot continue.")) := by
  have hr := emptyRetry_exhausted h0 h1 h2 a0 a1 a2
  obtain ⟨s2, hs2⟩ : ∃ x, sanitizeStr r2 = x := ⟨_, rfl⟩
  rw [hs2] at hr
  have ha2 : acceptB s2 = false := hs2 ▸ a2
  simp [runTurn, Nat.not_le.mpr hidx, hr, ha2]

/-! Concrete scripted scenarios for C1. -/

def cfgW : DebateConfig :=
  ⟨"Should AI be open source?", "http://localhost", "key"⟩

def aliceW : AIParticipant := ⟨"Alice", "gpt-x", .For, none, none⟩

def bobW : AIParticipant := ⟨"Bob", "gpt-y", .Against, none, none⟩

def fmtW : DebateFormat := (PresidentialDebateFormat.new 4).toFormat

/-- The 2-participant presidential (4 rounds) orchestrator used by the
concrete scenarios; the fallback branch is unreachable. -/
def orchW : DebateOrchestrator :=
  match DebateOrchestrator.new cfgW [aliceW, bobW] fmtW with
  | .ok o => o
  | .error _ => ⟨cfgW, [], fmtW, [], []⟩

/-- Scripted client that always returns empty content. -/
def clientEmptyW : Nat → Except DebateError String := fun _ => .ok ""

/-- Scripted client: empty content on the first call, a real response
on every later call. -/
def clientRetryW : Nat → Except DebateError String :=
  fun n => if n = 0 then .ok "" else .ok "The motion should carry tonight."

/-- C1: the empty-response retry loop makes at most 3 completion
attempts per turn; an attempt is accepted exactly when its sanitized,
trimmed length (`len()`, UTF-8 bytes) exceeds 10; a 2-second sleep
occurs between attempts but not after the last; on exhaustion the turn
— and hence `run()` — fails with an error naming the participant and
the retry count 3; a scripted empty-then-nonempty client succeeds with
the 2nd response after exactly 2 completion calls. -/
theorem C1_empty_response_retry :
    (∀ (client : Nat → Except DebateError String) (base : Nat) (s : String)
        (c : Nat) (tr : List Nat),
      emptyRetry client base = .ok (s, c, tr) →
      1 ≤ c ∧ c ≤ 3 ∧
      (∃ resp, client (base + (c - 1)) = .ok resp ∧ s = sanitizeStr resp) ∧
      (∀ j < c - 1, ∃ resp, client (base + j) = .ok resp ∧
        acceptB (sanitizeStr resp) = false) ∧
      tr = List.replicate (c - 1) 2 ∧
      (acceptB s = true ∨ (c = 3 ∧ acceptB s = false))) ∧
    (∀ (client : Nat → Except DebateError String) (sec : DebateSection)
        (idx : Nat) (st : DebateOrchestrator) (calls : Nat) (r0 r1 r2 : String),
      idx < st.participants.length →
      client (calls + 0) = .ok r0 → client (calls + 1) = .ok r1 →
      client (calls + 2) = .ok r2 →
      acceptB (sanitizeStr r0) = false → acceptB (sanitizeStr r1) = false →
      acceptB (sanitizeStr r2) = false →
      runTurn client sec idx st calls = .error (.ConfigError
        ("AI participant '" ++
          (st.participants.getD idx dummyParticipant).name ++
          "' returned empty response after 3 retries. Debate cannot continue."))) ∧
    emptyRetry clientRetryW 0 =
      .ok (sanitizeStr "The motion should carry tonight.", 2, [2]) ∧
    (∃ st', runTurn clientRetryW PresidentialDebateFormat.openingSection 0
        orchW 0 = .ok (st', 2) ∧
      st'.transcript.map DebateMessage.content =
        [sanitizeStr "The motion should carry tonight."]) ∧
    run clientEmptyW orchW = .error (.ConfigError
      "AI participant 'Alice' returned empty response after 3 retries. Debate cannot continue.") := by
  refine ⟨?_, ?_, ?_, ?_, ?_⟩
  · intro client base s c tr h
    exact emptyRetry_ok h
  · intro client sec idx st calls r0 r1 r2 hidx h0 h1 h2 a0 a1 a2
    exact runTurn_exhausted hidx h0 h1 h2 a0 a1 a2
  · rfl
  · exact ⟨_, rfl, by decide⟩
  · rfl

/-- Witness for C1: the scripted all-empty client exhausts the retry
loop on the very first turn, naming participant Alice; and the
empty-then-good client's loop result satisfies the characterization. -/
theorem C1_empty_response_retry_witness :
    runTurn clientEmptyW PresidentialDebateFormat.openingSection 0 orchW 0 =
      .error (.ConfigError
        "AI participant 'Alice' returned empty response after 3 retries. Debate cannot continue.") ∧
    (1 ≤ 2 ∧ (2 : Nat) ≤ 3 ∧
      (∃ resp, clientRetryW (0 + (2 - 1)) = .ok resp ∧
        sanitizeStr "The motion should carry tonight." = sanitizeStr resp) ∧
      (∀ j < 2 - 1, ∃ resp, clientRetryW (0 + j) = .ok resp ∧
        acceptB (sanitizeStr resp) = false) ∧
      [2] = List.replicate (2 - 1) 2 ∧
      (acceptB (sanitizeStr "The motion should carry tonight.") = true ∨
        ((2 : Nat) = 3 ∧
          acceptB (sanitizeStr "The motion should carry tonight.") = false))) :=
  ⟨C1_empty_response_retry.2.1 clientEmptyW
      PresidentialDebateFormat.openingSection 0 orchW 0 "" "" ""
      (by decide) rfl rfl rfl (by decide) (by decide) (by decide),
   C1_empty_response_retry.1 clientRetryW 0
      (sanitizeStr "The motion should carry tonight.") 2 [2] rfl⟩

/-! ### History-update lemmas -/

theorem appendAt_length (m : Msg) :
    ∀ (hs : List (List Msg)) (j : Nat), (appendAt hs j m).length = hs.length := by
  intro hs
  induction hs with
  | nil => intro j; cases j <;> rfl
  | cons h t ih =>
    intro j
    cases j with
    | zero => rfl
    | succ j' => simpa [appendAt] using ih j'

theorem appendAt_getD_eq (m : Msg) :
    ∀ (hs : List (List Msg)) (j : Nat), j < hs.length →
      (appendAt hs j m).getD j [] = hs.getD j [] ++ [m] := by
  intro hs
  induction hs with
  | nil => intro j hj; simp at hj
  | cons h t ih =>
    intro j hj
    cases j with
    | zero => rfl
    | succ j' => exact ih j' (by simpa using hj)

theorem appendAt_getD_ne (m : Msg) :
    ∀ (hs : List (List Msg)) (j i : Nat), i ≠ j →
      (appendAt hs j m).getD i [] = hs.getD i [] := by
  intro hs
  induction hs with
  | nil => intro j i _; cases j <;> rfl
  | cons h t ih =>
    intro j i hne
    cases j with
    | zero =>
      cases i with
      | zero => exact absurd rfl hne
      | succ i' => rfl
    | succ j' =>
      cases i with
      | zero => rfl
      | succ i' => exact ih j' i' (fun hh => hne (by rw [hh]))

theorem broadcastObs_length (sp : Nat) (obs : Msg) :
    ∀ (hs : List (List Msg)) (k : Nat),
      (broadcastObs sp obs k hs).length = hs.length := by
  intro hs
  induction hs with
  | nil => intro k; rfl
  | cons h t ih => intro k; simpa [broadcastObs] using ih (k + 1)

theorem broadcastObs_getD_eq (sp : Nat) (obs : Msg) :
    ∀ (hs : List (List Msg)) (k i : Nat), k + i = sp →
      (broadcastObs sp obs k hs).getD i [] = hs.getD i [] := by
  intro hs
  induction hs with
  | nil => intro k i _; rfl
  | cons h t ih =>
    intro k i hk
    cases i with
    | zero =>
      have : k = sp := by omega
      simp [broadcastObs, this]
    | succ i' =>
      show (broadcastObs sp obs (k + 1) t).getD i' [] = t.getD i' []
      exact ih (k + 1) i' (by omega)

theorem broadcastObs_getD_ne (sp : Nat) (obs : Msg) :
    ∀ (hs : List (List Msg)) (k i : Nat), i < hs.length → k + i ≠ sp →
      (broadcastObs sp obs k hs).getD i [] = hs.getD i [] ++ [obs] := by
  intro hs
  induction hs with
  | nil => intro k i hi _; simp at hi
  | cons h t ih =>
    intro k i hi hk
    cases i with
    | zero =>
      have : k ≠ sp := by omega
      simp [broadcastObs, this]
    | succ i' =>
      show (broadcastObs sp obs (k + 1) t).getD i' [] = t.getD i' [] ++ [obs]
      exact ih (k + 1) i' (by simpa using hi) (by omega)

/-- Full characterization of a successful `runTurn`: either the index
was out of range and the state is untouched, or exactly one transcript
entry is recorded and every history gains exactly its own turn entries
(section prompt + assistant answer for the speaker, one opponent
observation for everyone else). -/
theorem runTurn_ok_char {client : Nat → Except DebateError String}
    {sec : DebateSection} {idx : Nat} {st : DebateOrchestrator}
    {calls : Nat} {st' : DebateOrchestrator} {calls' : Nat}
    (h : runTurn client sec idx st calls = .ok (st', calls')) :
    st'.participants = st.participants ∧ st'.format = st.format ∧
    st'.config = st.config ∧
    st'.histories.length = st.histories.length ∧
    ((st.participants.length ≤ idx ∧ st' = st ∧ calls' = calls) ∨
     (idx < st.participants.length ∧ ∃ s used tr,
        emptyRetry client calls = .ok (s, used, tr) ∧ acceptB s = true ∧
        calls' = calls + used ∧
        st'.transcript = st.transcript ++
          [⟨sec.name, idx,
            (st.participants.getD idx dummyParticipant).name, s⟩] ∧
        ∀ i < st.histories.length,
          st'.histories.getD i [] = st.histories.getD i [] ++
            (if i = idx
             then [Msg.user (sectionPrompt sec), Msg.assistant s]
             else [Msg.user (opponentMsg
                (st.participants.getD idx dummyParticipant).name s)]))) := by
  by_cases hskip : st.participants.length ≤ idx
  · rw [show runTurn client sec idx st calls = .ok (st, calls) by
      simp [runTurn, hskip]] at h
    cases h
    exact ⟨rfl, rfl, rfl, rfl, Or.inl ⟨hskip, rfl, rfl⟩⟩
  · cases hr : emptyRetry client calls with
    | error e =>
      rw [show runTurn client sec idx st calls = .error e by
        simp [runTurn, hskip, hr]] at h
      cases h
    | ok v =>
      obtain ⟨s, used, tr⟩ := v
      by_cases ha : acceptB s = true
      · rw [show runTurn client sec idx st calls = .ok
            ({ st with
               transcript := st.transcript ++
                 [⟨sec.name, idx,
                   (st.participants.getD idx dummyParticipant).name, s⟩]
               histories := broadcastObs idx
                 (.user (opponentMsg
                   (st.participants.getD idx dummyParticipant).name s)) 0
                 (appendAt (appendAt st.histories idx
                   (.user (sectionPrompt sec))) idx (.assistant s)) },
             calls + used) by
          simp [runTurn, hskip, hr, ha]] at h
        cases h
        refine ⟨rfl, rfl, rfl, ?_, Or.inr ⟨Nat.lt_of_not_le hskip,
          s, used, tr, rfl, ha, rfl, rfl, ?_⟩⟩
        · show (broadcastObs _ _ 0 (appendAt (appendAt _ _ _) _ _)).length = _
          rw [broadcastObs_length, appendAt_length, appendAt_length]
        · intro i hi
          by_cases hieq : i = idx
          · subst hieq
            show (broadcastObs _ _ 0 _).getD i [] = _
            rw [broadcastObs_getD_eq _ _ _ 0 i (by omega),
              appendAt_getD_eq _ _ _ (by rwa [appendAt_length]),
              appendAt_getD_eq _ _ _ hi, if_pos rfl, List.append_assoc]
            rfl
          · show (broadcastObs _ _ 0 _).getD i [] = _
            rw [broadcastObs_getD_ne _ _ _ 0 i
                (by rwa [appendAt_length, appendAt_length]) (by omega),
              appendAt_getD_ne _ _ _ _ hieq, appendAt_getD_ne _ _ _ _ hieq,
              if_neg hieq]
      · rw [show runTurn client sec idx st calls = .error (.ConfigError
            ("AI participant '" ++
              (st.participants.getD idx dummyParticipant).name ++
              "' returned empty response after 3 retries. Debate cannot continue.")) by
          simp [runTurn, hskip, hr, ha]] at h
        cases h

theorem getD_default_of_le {α : Type} {l : List α} {i : Nat} (d : α)
    (h : l.length ≤ i) : l.getD i d = d := by
  rw [List.getD_eq_getElem?_getD, List.getElem?_eq_none h]
  rfl

theorem runTurn_histories_extend {client : Nat → Except DebateError String}
    {sec : DebateSection} {idx : Nat} {st : DebateOrchestrator} {calls : Nat}
    {st' : DebateOrchestrator} {calls' : Nat}
    (h : runTurn client sec idx st calls = .ok (st', calls')) :
    ∀ i, st.histories.getD i [] <+: st'.histories.getD i [] := by
  obtain ⟨hp, hf, hc, hlen, hcase⟩ := runTurn_ok_char h
  intro i
  rcases hcase with ⟨_, rfl, _⟩ | ⟨hidx, s, used, tr, _, _, _, _, hhist⟩
  · exact List.prefix_refl _
  · by_cases hi : i < st.histories.length
    · rw [hhist i hi]
      exact List.prefix_append _ _
    · rw [getD_default_of_le _ (by omega),
        getD_default_of_le _ (le_of_eq_of_le hlen (by omega))]

theorem runSpeakers_histories_extend
    {client : Nat → Except DebateError String} {sec : DebateSection} :
    ∀ (order : List Nat) (st : DebateOrchestrator) (calls : Nat)
      (st' : DebateOrchestrator) (calls' : Nat),
      runSpeakers client sec order (st, calls) = .ok (st', calls') →
      ∀ i, st.histories.getD i [] <+: st'.histories.getD i [] := by
  intro order
  induction order with
  | nil =>
    intro st calls st' calls' h i
    cases h
    exact List.prefix_refl _
  | cons idx rest ih =>
    intro st calls st' calls' h i
    cases ht : runTurn client sec idx st calls with
    | error e =>
      rw [show runSpeakers client sec (idx :: rest) (st, calls) = .error e by
        simp [runSpeakers, ht]] at h
      cases h
    | ok p =>
      obtain ⟨st₁, calls₁⟩ := p
      rw [show runSpeakers client sec (idx :: rest) (st, calls) =
          runSpeakers client sec rest (st₁, calls₁) by
        simp [runSpeakers, ht]] at h
      exact (runTurn_histories_extend ht i).trans
        (ih st₁ calls₁ st' calls' h i)

theorem runSections_histories_extend
    {client : Nat → Except DebateError String} :
    ∀ (secs : List DebateSection) (st : DebateOrchestrator) (calls : Nat)
      (st' : DebateOrchestrator) (calls' : Nat),
      runSections client secs (st, calls) = .ok (st', calls') →
      ∀ i, st.histories.getD i [] <+: st'.histories.getD i [] := by
  intro secs
  induction secs with
  | nil =>
    intro st calls st' calls' h i
    cases h
    exact List.prefix_refl _
  | cons sec rest ih =>
    intro st calls st' calls' h i
    cases hs : runSection client sec (st, calls) with
    | error e =>
      rw [show runSections client (sec :: rest) (st, calls) = .error e by
        simp [runSections, hs]] at h
      cases h
    | ok p =>
      obtain ⟨st₁, calls₁⟩ := p
      rw [show runSections client (sec :: rest) (st, calls) =
          runSections client rest (st₁, calls₁) by
        simp [runSections, hs]] at h
      exact (runSpeakers_histories_extend sec.speaker_order st calls st₁
        calls₁ hs i).trans (ih st₁ calls₁ st' calls' h i)

theorem head?_of_isPrefix {α : Type} {l l' : List α} {x : α}
    (hp : l <+: l') (h : l.head? = some x) : l'.head? = some x := by
  obtain ⟨t, rfl⟩ := hp
  cases l with
  | nil => cases h
  | cons a as => cases h; rfl

/-- Unpacking a successful construction: the failure test and the
seeded state. -/
theorem new_ok_char {config : DebateConfig} {participants : List AIParticipant}
    {format : DebateFormat} {o : DebateOrchestrator}
    (h : DebateOrchestrator.new config participants format = .ok o) :
    o.config = config ∧ o.participants = participants ∧ o.format = format ∧
    o.transcript = [] ∧
    o.histories = seedAux config format participants 0 participants := by
  by_cases hb : participants.length < format.min_participants ∨
      participants.length > format.max_participants
  · rw [DebateOrchestrator.new, if_pos hb] at h
    cases h
  · rw [DebateOrchestrator.new, if_neg hb] at h
    cases h
    exact ⟨rfl, rfl, rfl, rfl, rfl⟩

/-- C7: every history's element 0 is the system message fixed at
construction (custom prompt if set, otherwise the format prompt), and
every operation of the run — each turn, each section, the whole
section loop — only appends to histories (the old history is a prefix
of the new one at every index), so the invariant holds at every point
of a run, in particular at its end. -/
theorem C7_history_invariants :
    (∀ (client : Nat → Except DebateError String) (sec : DebateSection)
        (idx : Nat) (st : DebateOrchestrator) (calls : Nat)
        (st' : DebateOrchestrator) (calls' : Nat),
      runTurn client sec idx st calls = .ok (st', calls') →
      ∀ i, st.histories.getD i [] <+: st'.histories.getD i []) ∧
    (∀ (client : Nat → Except DebateError String) (sec : DebateSection)
        (order : List Nat) (st : DebateOrchestrator) (calls : Nat)
        (st' : DebateOrchestrator) (calls' : Nat),
      runSpeakers client sec order (st, calls) = .ok (st', calls') →
      ∀ i, st.histories.getD i [] <+: st'.histories.getD i []) ∧
    (∀ (client : Nat → Except DebateError String)
        (secs : List DebateSection) (st : DebateOrchestrator) (calls : Nat)
        (st' : DebateOrchestrator) (calls' : Nat),
      runSections client secs (st, calls) = .ok (st', calls') →
      ∀ i, st.histories.getD i [] <+: st'.histories.getD i []) ∧
    (∀ (config : DebateConfig) (participants : List AIParticipant)
        (format : DebateFormat) (o : DebateOrchestrator),
      DebateOrchestrator.new config participants format = .ok o →
      (∀ i < participants.length, (o.histories.getD i []).head? =
        some (.system (seededSystemPrompt config format participants i
          (participants.getD i dummyParticipant)))) ∧
      (∀ (client : Nat → Except DebateError String)
          (tr : List DebateMessage) (o' : DebateOrchestrator) (calls : Nat),
        run client o = .ok (tr, o', calls) →
        ∀ i < participants.length, (o'.histories.getD i []).head? =
          some (.system (seededSystemPrompt config format participants i
            (participants.getD i dummyParticipant))))) := by
  refine ⟨?_, ?_, ?_, ?_⟩
  · intro client sec idx st calls st' calls' h
    exact runTurn_histories_extend h
  · intro client sec order st calls st' calls' h
    exact runSpeakers_histories_extend order st calls st' calls' h
  · intro client secs st calls st' calls' h
    exact runSections_histories_extend secs st calls st' calls' h
  · intro config participants format o hnew
    obtain ⟨_, hpart, _, _, hhist⟩ := new_ok_char hnew
    have hseed : ∀ i < participants.length, o.histories.getD i [] =
        [Msg.system (seededSystemPrompt config format participants i
          (participants.getD i dummyParticipant))] := by
      intro i hi
      rw [hhist, seedAux_getD config format participants participants 0 i hi]
      rw [Nat.zero_add]
    refine ⟨fun i hi => by rw [hseed i hi]; rfl, ?_⟩
    intro client tr o' calls hrun
    intro i hi
    cases hrs : runSections client o.format.sections (o, 0) with
    | error e =>
      rw [show run client o = .error e by simp [run, hrs]] at hrun
      cases hrun
    | ok p =>
      obtain ⟨o'', calls''⟩ := p
      rw [show run client o = .ok (o''.transcript, o'', calls'') by
        simp [run, hrs]] at hrun
      obtain ⟨htr, ho, hcalls⟩ : o''.transcript = tr ∧ o'' = o' ∧
          calls'' = calls := by simpa using hrun
      subst ho
      exact head?_of_isPrefix
        (runSections_histories_extend o.format.sections o 0 o'' calls'' hrs i)
        (by rw [hseed i hi]; rfl)

/-- Scripted client that always answers with acceptable content. -/
def clientGoodW : Nat → Except DebateError String :=
  fun _ => .ok "The motion should carry tonight."

/-- Witness for C7: a full concrete run (2 participants, presidential,
4 rounds, always-good client) whose final histories still start with
the seeded system messages. -/
theorem C7_history_invariants_witness :
    ∃ o tr o' calls,
      DebateOrchestrator.new cfgW [aliceW, bobW] fmtW = .ok o ∧
      run clientGoodW o = .ok (tr, o', calls) ∧
      ∀ i < 2, (o'.histories.getD i []).head? =
        some (.system (seededSystemPrompt cfgW fmtW [aliceW, bobW] i
          ([aliceW, bobW].getD i dummyParticipant))) := by
  refine ⟨_, _, _, _, rfl, rfl, ?_⟩
  exact (C7_history_invariants.2.2.2 cfgW [aliceW, bobW] fmtW _ rfl).2
    clientGoodW _ _ _ rfl

/-! ### C3: transcript schedule and opponent observations -/

/-- An opponent-observation history entry: a user message whose content
starts with `"[Opponent "` — exactly the entries pushed by the
broadcast step (the section prompts of this format start with the
section name instead, and assistant/system entries have a different
role). -/
def isObsEntry : Msg → Bool
  | .user c => "[Opponent ".data.isPrefixOf c.data
  | _ => false

/-- Number of opponent observations in a history. -/
def countObs (l : List Msg) : Nat :=
  l.countP isObsEntry

/-- The (section, speaker) projection of a transcript entry. -/
def turnPair (m : DebateMessage) : String × Nat :=
  (m.sectionName, m.speaker_index)

/-- Invariant tying histories to the transcript: each history holds one
opponent observation per transcript entry spoken by someone else. -/
def HistObsInv (st : DebateOrchestrator) : Prop :=
  ∀ i < st.histories.length,
    countObs (st.histories.getD i []) =
      (st.transcript.filter (fun m => m.speaker_index ≠ i)).length

theorem isObsEntry_assistant (s : String) :
    isObsEntry (.assistant s) = false := rfl

theorem isObsEntry_system (s : String) :
    isObsEntry (.system s) = false := rfl

theorem isObsEntry_opponentMsg (n s : String) :
    isObsEntry (.user (opponentMsg n s)) = true := by
  show "[Opponent ".data.isPrefixOf (opponentMsg n s).data = true
  rw [List.isPrefixOf_iff_prefix]
  show "[Opponent ".data <+: ("[Opponent " ++ n ++ " said]: " ++ s).data
  rw [String.data_append, String.data_append, String.data_append,
    List.append_assoc, List.append_assoc]
  exact List.prefix_append _ _

/-- One in-range turn appends one schedule pair to the transcript
projection and preserves the observation invariant, provided the
section's prompt is not itself observation-shaped. -/
theorem runTurn_step {client : Nat → Except DebateError String}
    {sec : DebateSection} {idx : Nat} {st : DebateOrchestrator}
    {calls : Nat} {st' : DebateOrchestrator} {calls' : Nat}
    (hP : isObsEntry (.user (sectionPrompt sec)) = false)
    (hidx : idx < st.participants.length)
    (h : runTurn client sec idx st calls = .ok (st', calls')) :
    st'.participants = st.participants ∧
    st'.histories.length = st.histories.length ∧
    st'.transcript.map turnPair =
      st.transcript.map turnPair ++ [(sec.name, idx)] ∧
    (HistObsInv st → HistObsInv st') := by
  obtain ⟨hp, hf, hc, hlen, hcase⟩ := runTurn_ok_char h
  rcases hcase with ⟨hskip, _, _⟩ | ⟨_, s, used, tr, _, ha, _, htr, hhist⟩
  · omega
  · refine ⟨hp, hlen, ?_, ?_⟩
    · rw [htr, List.map_append]
      rfl
    · intro hinv i hi'
      have hi : i < st.histories.length := hlen ▸ hi'
      rw [hhist i hi, htr, countObs, List.countP_append, ← countObs,
        List.filter_append, List.length_append, hinv i hi]
      congr 1
      by_cases hieq : i = idx
      · subst hieq
        rw [if_pos rfl]
        simp [countObs, List.countP_cons, hP, isObsEntry_assistant]
      · rw [if_neg hieq]
        simp [countObs, List.countP_cons, isObsEntry_opponentMsg,
          Ne.symm hieq]

/-- `runSpeakers` over an in-range speaker list appends exactly the
scheduled pairs, in order, and preserves the observation invariant. -/
theorem runSpeakers_step {client : Nat → Except DebateError String}
    {sec : DebateSection}
    (hP : isObsEntry (.user (sectionPrompt sec)) = false) :
    ∀ (order : List Nat) (st : DebateOrchestrator) (calls : Nat)
      (st' : DebateOrchestrator) (calls' : Nat),
      (∀ j ∈ order, j < st.participants.length) →
      runSpeakers client sec order (st, calls) = .ok (st', calls') →
      st'.participants = st.participants ∧
      st'.histories.length = st.histories.length ∧
      st'.transcript.map turnPair = st.transcript.map turnPair ++
        order.map (fun j => (sec.name, j)) ∧
      (HistObsInv st → HistObsInv st') := by
  intro order
  induction order with
  | nil =>
    intro st calls st' calls' _ h
    cases h
    exact ⟨rfl, rfl, by simp, id⟩
  | cons idx rest ih =>
    intro st calls st' calls' hrange h
    cases ht : runTurn client sec idx st calls with
    | error e =>
      rw [show runSpeakers client sec (idx :: rest) (st, calls) = .error e by
        simp [runSpeakers, ht]] at h
      cases h
    | ok p =>
      obtain ⟨st₁, calls₁⟩ := p
      rw [show runSpeakers client sec (idx :: rest) (st, calls) =
          runSpeakers client sec rest (st₁, calls₁) by
        simp [runSpeakers, ht]] at h
      obtain ⟨hp1, hl1, htr1, hinv1⟩ := runTurn_step hP
        (hrange idx (List.mem_cons_self idx rest)) ht
      obtain ⟨hp2, hl2, htr2, hinv2⟩ := ih st₁ calls₁ st' calls'
        (fun j hj => hp1 ▸ hrange j (List.mem_cons_of_mem _ hj)) h
      refine ⟨hp2.trans hp1, hl2.trans hl1, ?_, fun hv => hinv2 (hinv1 hv)⟩
      rw [htr2, htr1, List.map_cons, List.append_assoc]
      rfl

/-- `runSections` over sections with in-range speakers and
non-observation-shaped prompts appends the whole schedule and
preserves the observation invariant. -/
theorem runSections_step {client : Nat → Except DebateError String} :
    ∀ (secs : List DebateSection) (st : DebateOrchestrator) (calls : Nat)
      (st' : DebateOrchestrator) (calls' : Nat),
      (∀ sec ∈ secs, isObsEntry (.user (sectionPrompt sec)) = false) →
      (∀ sec ∈ secs, ∀ j ∈ sec.speaker_order,
        j < st.participants.length) →
      runSections client secs (st, calls) = .ok (st', calls') →
      st'.participants = st.participants ∧
      st'.histories.length = st.histories.length ∧
      st'.transcript.map turnPair = st.transcript.map turnPair ++
        secs.flatMap (fun sec =>
          sec.speaker_order.map (fun j => (sec.name, j))) ∧
      (HistObsInv st → HistObsInv st') := by
  intro secs
  induction secs with
  | nil =>
    intro st calls st' calls' _ _ h
    cases h
    exact ⟨rfl, rfl, by simp, id⟩
  | cons sec rest ih =>
    intro st calls st' calls' hPs hrange h
    cases hs : runSection client sec (st, calls) with
    | error e =>
      rw [show runSections client (sec :: rest) (st, calls) = .error e by
        simp [runSections, hs]] at h
      cases h
    | ok p =>
      obtain ⟨st₁, calls₁⟩ := p
      rw [show runSections client (sec :: rest) (st, calls) =
          runSections client rest (st₁, calls₁) by
        simp [runSections, hs]] at h
      obtain ⟨hp1, hl1, htr1, hinv1⟩ := runSpeakers_step
        (hPs sec (List.mem_cons_self sec rest)) sec.speaker_order st calls
        st₁ calls₁ (hrange sec (List.mem_cons_self sec rest)) hs
      obtain ⟨hp2, hl2, htr2, hinv2⟩ := ih st₁ calls₁ st' calls'
        (fun q hq => hPs q (List.mem_cons_of_mem _ hq))
        (fun q hq j hj => hp1 ▸ hrange q (List.mem_cons_of_mem _ hq) j hj) h
      refine ⟨hp2.trans hp1, hl2.trans hl1, ?_, fun hv => hinv2 (hinv1 hv)⟩
      rw [htr2, htr1, List.flatMap_cons, List.append_assoc]

/-- C3: after a complete `run()` of a 2-participant presidential
(4-round) debate, the transcript's (section, speaker) projection is
exactly the schedule, in section order — one entry per scheduled pair
— and each participant's final history holds exactly one
opponent-observation entry per transcript entry spoken by a different
participant. -/
theorem C3_transcript_and_histories
    (config : DebateConfig) (p0 p1 : AIParticipant)
    (client : Nat → Except DebateError String)
    (o o' : DebateOrchestrator) (tr : List DebateMessage) (calls : Nat)
    (hnew : DebateOrchestrator.new config [p0, p1]
      (PresidentialDebateFormat.new 4).toFormat = .ok o)
    (hrun : run client o = .ok (tr, o', calls)) :
    tr.map turnPair =
      [("Opening Statements", 0), ("Opening Statements", 1),
       ("Main Arguments - Round 1", 0), ("Main Arguments - Round 1", 1),
       ("Rebuttals", 1), ("Rebuttals", 0),
       ("Closing Statements", 0), ("Closing Statements", 1)] ∧
    o'.histories.length = 2 ∧
    ∀ i < 2, countObs (o'.histories.getD i []) =
      (tr.filter (fun m => m.speaker_index ≠ i)).length := by
  obtain ⟨hcfg, hpart, hfmt, htr0, hhist0⟩ := new_ok_char hnew
  have hlen0 : o.histories.length = 2 := by
    rw [hhist0, seedAux_length]
    rfl
  have hinv0 : HistObsInv o := by
    intro i hi
    rw [hhist0] at hi
    rw [seedAux_length] at hi
    rw [hhist0, seedAux_getD _ _ _ _ 0 i hi, htr0]
    rfl
  cases hrs : runSections client o.format.sections (o, 0) with
  | error e =>
    rw [show run client o = .error e by simp [run, hrs]] at hrun
    cases hrun
  | ok p =>
    obtain ⟨o'', calls''⟩ := p
    rw [show run client o = .ok (o''.transcript, o'', calls'') by
      simp [run, hrs]] at hrun
    obtain ⟨htr, ho, hcalls⟩ : o''.transcript = tr ∧ o'' = o' ∧
        calls'' = calls := by simpa using hrun
    subst ho
    rw [show o.format.sections =
      (PresidentialDebateFormat.new 4).toFormat.sections by rw [hfmt]] at hrs
    have haux : ∀ sec ∈ (PresidentialDebateFormat.new 4).toFormat.sections,
        ∀ j ∈ sec.speaker_order, j < 2 := by decide
    obtain ⟨hp, hl, htrm, hinv⟩ := runSections_step _ o 0 o'' calls''
      (by decide)
      (by
        intro sec hsec j hj
        rw [hpart]
        exact haux sec hsec j hj)
      hrs
    refine ⟨?_, ?_, ?_⟩
    · rw [← htr, htrm, htr0]
      rfl
    · rw [hl, hlen0]
    · intro i hi
      have := hinv hinv0 i (by rw [hl, hlen0]; exact hi)
      rw [← htr]
      exact this

/-- Witness for C3: the always-good scripted client completes the full
4-section, 8-turn run and the conclusions hold on the resulting
state. -/
theorem C3_transcript_and_histories_witness :
    ∃ o tr o' calls,
      DebateOrchestrator.new cfgW [aliceW, bobW]
          (PresidentialDebateFormat.new 4).toFormat = .ok o ∧
      run clientGoodW o = .ok (tr, o', calls) ∧
      (tr.map turnPair =
        [("Opening Statements", 0), ("Opening Statements", 1),
         ("Main Arguments - Round 1", 0), ("Main Arguments - Round 1", 1),
         ("Rebuttals", 1), ("Rebuttals", 0),
         ("Closing Statements", 0), ("Closing Statements", 1)] ∧
       o'.histories.length = 2 ∧
       ∀ i < 2, countObs (o'.histories.getD i []) =
         (tr.filter (fun m => m.speaker_index ≠ i)).length) := by
  refine ⟨_, _, _, _, rfl, rfl, ?_⟩
  exact C3_transcript_and_histories cfgW aliceW bobW clientGoodW _ _ _ _
    rfl rfl

end DebateAI
